import Mathlib

/-!
Shallow embedding of the advanced query-builder module (`utils/queryBuilder.js`)
of the Plant repository, together with proofs of the specified properties.

The module translates an HTTP request's query parameters into a document-store
query (filter / sort / pagination / search) and a paginated response envelope.
Pure computations (parsing, clamping, escaping, URL building) are translated
directly; the two external collaborators (the category-name resolver and the
document store) are passed in as explicit data (a name→id association list and
the `totalCount` the store would report).

Modelling conventions:
* JavaScript `undefined`/missing query parameters are `Option.none`.
* JS string truthiness (`""` is falsy) is made explicit via `strTruthy`.
* `new Date(s)` is modelled by `parseDate`, restricted to the ISO
  `YYYY-MM-DD` form; an unparseable string gives `none` (JS `Invalid Date`).
* Characters are treated at the Unicode-scalar level; percent-encoding is
  modelled for the ASCII range (non-ASCII characters pass through both the
  encoder and the decoder unchanged, abstracting UTF-8 byte expansion).
* The JS `RegExp` constructor is modelled in two parts: `jsRegexValid`
  decides whether a pattern string is accepted (an invalid pattern makes the
  constructor throw a SyntaxError), and the small semantics `regexTest`
  interprets the dot/literal fragment that escaped patterns and simple
  search terms fall into.
-/

namespace Plant

/-- A scalar JavaScript value as it can appear as a query-parameter value
after Express parsing: a string, a number, or a boolean. -/
inductive JSVal where
  | vstr (s : String)
  | vnum (n : Int)
  | vbool (b : Bool)
  deriving DecidableEq, Repr

/-- A compiled filter predicate, one per field key of the Mongo filter object:
`$in` set membership, exact equality, case-insensitive `$regex`,
a date range (`$gte`/`$lte`, each bound optional, `none` inside meaning the
JS `Invalid Date`), a `$or` disjunction (field, regex-pattern pairs produced
by global search), or a category ObjectId. -/
inductive FilterVal where
  | fin (vals : List String)
  | feq (v : JSVal)
  | fregex (pattern : String)
  | frange (gte lte : Option (Option Nat))
  | forList (conds : List (String × String))
  | fid (id : Nat)
  deriving DecidableEq, Repr

/-- JavaScript object-property assignment `m[k] = v` on an insertion-ordered
object represented as an association list: an existing key is overwritten in
place, a new key is appended at the end. -/
def setKey {α : Type} : List (String × α) → String → α → List (String × α)
  | [], k, v => [(k, v)]
  | (k', v') :: rest, k, v =>
      if k' = k then (k, v) :: rest else (k', v') :: setKey rest k v

/-- Property lookup `m[k]` on an association list (first match wins). -/
def lookupKey {α : Type} : List (String × α) → String → Option α
  | [], _ => none
  | (k', v') :: rest, k => if k' = k then some v' else lookupKey rest k

/-- JS truthiness of an optional string: `undefined` and `""` are falsy;
a truthy string is returned unchanged. -/
def strTruthy : Option String → Option String
  | some s => if s = "" then none else some s
  | none => none

/-- Value of a non-empty list of decimal digit characters. -/
def digitsVal (l : List Char) : Nat :=
  l.foldl (fun a c => a * 10 + (c.toNat - 48)) 0

/-- Leading run of decimal digits, parsed; `none` when there is none. -/
def leadDigits (l : List Char) : Option Nat :=
  let ds := l.takeWhile Char.isDigit
  if ds.isEmpty then none else some (digitsVal ds)

/-- Model of JavaScript `parseInt` (base 10): an optional sign followed by a
leading run of decimal digits; anything else is `NaN`, modelled as `none`.
(The whitespace-skipping and hex-prefix corners of `parseInt` are outside the
inputs this module cares about and are not modelled.) -/
def parseIntJS (s : String) : Option Int :=
  match s.data with
  | '-' :: rest => (leadDigits rest).map (fun n => -(n : Int))
  | '+' :: rest => (leadDigits rest).map (fun n => (n : Int))
  | l => (leadDigits l).map (fun n => (n : Int))

/-- JS `x || d` on the result of `parseInt`: `NaN` (here `none`) and `0` are
falsy and fall back to the default. -/
def jsOrInt (o : Option Int) (d : Int) : Int :=
  match o with
  | some n => if n = 0 then d else n
  | none => d

/-- Parse of a non-empty all-digit string. -/
def natOfDigits? (l : List Char) : Option Nat :=
  if l.isEmpty then none
  else if l.all Char.isDigit then some (digitsVal l) else none

/-- Splitting a character list on a separator character
(`n` separators yield `n+1` segments; the empty list yields `[[]]`). -/
def splitOnChar (sep : Char) : List Char → List (List Char)
  | [] => [[]]
  | x :: xs =>
      if x = sep then [] :: splitOnChar sep xs
      else
        match splitOnChar sep xs with
        | [] => [[x]]
        | h :: t => (x :: h) :: t

/-- Whitespace trimmed from both ends of a character list (JS `trim`). -/
def trimChars (l : List Char) : List Char :=
  ((l.dropWhile Char.isWhitespace).reverse.dropWhile Char.isWhitespace).reverse

/-- JS `trim` on a string. -/
def trimString (s : String) : String :=
  ⟨trimChars s.data⟩

/-- Lower-casing of every character (ASCII model of locale folding). -/
def toLowerString (s : String) : String :=
  ⟨s.data.map Char.toLower⟩

/-- Whether a string starts with the given character. -/
def startsWithChar (s : String) (c : Char) : Bool :=
  match s.data with
  | d :: _ => d = c
  | [] => false

/-- Whether a string contains the given character (JS `includes`). -/
def containsChar (s : String) (c : Char) : Bool :=
  s.data.contains c

/-- Model of `new Date(s)` restricted to the ISO calendar-date form
`YYYY-MM-DD`; a parseable date is encoded as `y*10000 + m*100 + d`, and any
other input is the JS `Invalid Date`, modelled as `none`. -/
def parseDate (s : String) : Option Nat :=
  match splitOnChar '-' s.data with
  | [y, m, d] =>
      match natOfDigits? y, natOfDigits? m, natOfDigits? d with
      | some yn, some mn, some dn =>
          if y.length = 4 ∧ 1 ≤ mn ∧ mn ≤ 12 ∧ 1 ≤ dn ∧ dn ≤ 31 then
            some (yn * 10000 + mn * 100 + dn)
          else none
      | _, _, _ => none
  | _ => none

/-- The regex metacharacters the source escapes before building a pattern:
dot, star, plus, question mark, caret, dollar, braces, parentheses, pipe,
brackets, and backslash. -/
def isRegexMeta (c : Char) : Bool :=
  c ∈ ['.', '*', '+', '?', '^', '$', '\x7b', '\x7d', '(', ')', '|', '[', ']', '\\']

/-- Escape of one character for literal use inside a regex. -/
def escapeChar (c : Char) : List Char :=
  if isRegexMeta c then ['\\', c] else [c]

/-- The regex escaping the source applies to a filter value:
every metacharacter is prefixed with a backslash. -/
def escapeRegex (s : String) : String :=
  ⟨s.data.flatMap escapeChar⟩

/-- The caller-supplied options object (third argument of `queryBuilder`);
every field is optional, `none` meaning "not supplied". -/
structure Options where
  defaultLimit : Option Int := none
  maxLimit : Option Int := none
  defaultSort : Option String := none
  allowedSortFields : Option (List String) := none
  allowedFilterFields : Option (List String) := none
  searchFields : Option (List String) := none
  dateField : Option String := none
  deriving DecidableEq, Repr

/-- The effective configuration after `{ ...defaults, ...options }`:
caller overrides win, otherwise the module's built-in defaults apply. -/
structure Config where
  defaultLimit : Int
  maxLimit : Int
  defaultSort : String
  allowedSortFields : List String
  allowedFilterFields : List String
  deriving DecidableEq, Repr

/-- Merge of the built-in defaults with the caller's options
(`defaultLimit 100`, `maxLimit 100`, `defaultSort "createdAt"`,
empty allowlists). -/
def mkConfig (o : Options) : Config :=
  { defaultLimit := o.defaultLimit.getD 100
    maxLimit := o.maxLimit.getD 100
    defaultSort := o.defaultSort.getD "createdAt"
    allowedSortFields := o.allowedSortFields.getD []
    allowedFilterFields := o.allowedFilterFields.getD [] }

/-- The parts of the Express request the module reads: the individual query
parameters, the `filter` object (when Express parsed one), the
`filter[field]` bracket keys (when it did not), the request context used for
URL building, and the raw query parameter list echoed into navigation URLs. -/
structure Req where
  page : Option String := none
  limit : Option String := none
  sort : Option String := none
  search : Option String := none
  date_from : Option String := none
  date_to : Option String := none
  categories : Option String := none
  filter : Option (List (String × JSVal)) := none
  bracketFilter : List (String × JSVal) := []
  protocol : String := "http"
  host : String := "localhost"
  basePath : String := ""
  path : String := "/"
  rawQuery : List (String × String) := []
  deriving DecidableEq, Repr

/-- Parsed page number: `Math.max(1, parseInt(req.query.page) || 1)`. -/
def pageOf (q : Req) : Int :=
  max 1 (jsOrInt (q.page.bind parseIntJS) 1)

/-- Effective page size:
`Math.min(Math.max(1, parseInt(req.query.limit) || config.defaultLimit), config.maxLimit)`. -/
def limitOf (cfg : Config) (q : Req) : Int :=
  min (max 1 (jsOrInt (q.limit.bind parseIntJS) cfg.defaultLimit)) cfg.maxLimit

/-- Number of records skipped: `(page - 1) * limit`. -/
def skipOf (cfg : Config) (q : Req) : Int :=
  (pageOf q - 1) * limitOf cfg q

/-- Leading `-` stripped from a sort directive to obtain the field name
(`sortField.substring(1)` in the source). -/
def stripSort (s : String) : String :=
  if startsWithChar s '-' then ⟨s.data.tail⟩ else s

/-- The sort object: a single `(field, direction)` pair with `1` ascending and
`-1` descending. A truthy `sort` parameter is honoured when the allowlist is
empty or contains the stripped field name; otherwise, and when `sort` is
absent or empty, the default is `(config.defaultSort, -1)`. -/
def sortObjectOf (cfg : Config) (q : Req) : List (String × Int) :=
  match strTruthy q.sort with
  | some sortField =>
      if cfg.allowedSortFields.length = 0 ∨ stripSort sortField ∈ cfg.allowedSortFields then
        [(stripSort sortField, if startsWithChar sortField '-' then -1 else 1)]
      else
        [(cfg.defaultSort, -1)]
  | none => [(cfg.defaultSort, -1)]

/-- Category resolution (`Categories.findOne` with primary-strength
collation, modelled as ASCII case-insensitive name lookup over the injected
name→id list): when the `categories` parameter is truthy and the trimmed name
resolves, `categoriesIds` is set to the resolved id; otherwise the filter is
untouched. -/
def categoriesStage (db : List (String × Nat)) (q : Req)
    (f : List (String × FilterVal)) : List (String × FilterVal) :=
  match strTruthy q.categories with
  | some c =>
      match db.find? (fun p => toLowerString p.1 == toLowerString (trimString c)) with
      | some p => setKey f "categoriesIds" (.fid p.2)
      | none => f
  | none => f

/-- The filter mapping the loop iterates over: the `filter` object when
Express produced one, otherwise the mapping synthesized from
`filter[field]` bracket keys (empty when neither is present). -/
def effectiveFilterInput (q : Req) : List (String × JSVal) :=
  match q.filter with
  | some m => m
  | none => q.bracketFilter

/-- The predicate an accepted filter field compiles to: `$in` of the trimmed
comma components (string value containing a comma), exact match (the `status`
field, or any non-string value), or a case-insensitive escaped-substring
regex (any other string value). -/
def compileFilterValue (field : String) (v : JSVal) : FilterVal :=
  match v with
  | .vstr s =>
      if containsChar s ',' then
        .fin ((splitOnChar ',' s.data).map (fun part => (⟨trimChars part⟩ : String)))
      else if field = "status" then .feq (.vstr s)
      else .fregex (escapeRegex s)
  | v => .feq v

/-- One iteration of the filter loop: a field outside a non-empty
`allowedFilterFields` is dropped silently; an accepted field is assigned its
compiled predicate. -/
def applyFilterField (cfg : Config) (f : List (String × FilterVal))
    (kv : String × JSVal) : List (String × FilterVal) :=
  if cfg.allowedFilterFields.length = 0 ∨ kv.1 ∈ cfg.allowedFilterFields then
    setKey f kv.1 (compileFilterValue kv.1 kv.2)
  else f

/-- The field-filter loop over the effective filter input. -/
def filterStage (cfg : Config) (q : Req)
    (f : List (String × FilterVal)) : List (String × FilterVal) :=
  (effectiveFilterInput q).foldl (applyFilterField cfg) f

/-- Scan of a regex character class after its opening `[`: everything up to
the first unescaped `]` belongs to the class; the remainder of the pattern is
returned, or `none` when the class is unterminated (a syntax error). -/
def validClassTail : List Char → Option (List Char)
  | [] => none
  | '\\' :: [] => none
  | '\\' :: _ :: rest => validClassTail rest
  | ']' :: rest => some rest
  | _ :: rest => validClassTail rest

/-- Model of which pattern strings the JS `RegExp` constructor accepts
(no flags / non-unicode mode), with explicit fuel so the recursion is
structural. The modelled fragment: backslash escapes (any escaped character
is an atom; a dangling backslash is an error), character classes (must be
terminated), groups `(...)` including the modifiers `(?:` `(?=` `(?!`
(must balance; a stray `)` is an error), the quantifiers `* + ?` with an
optional lazy `?` (an error without a preceding atom), the operators
`| ^ $`, and all other characters as literal atoms. Outside the fragment:
brace quantifiers are not modelled — `\x7b` and `\x7d` are treated as the
literal atoms JS makes of a non-quantifier brace — and lookbehind/named
groups `(?<...` are not modelled. The state is the open-group depth and
whether a quantifiable atom precedes. -/
def regexOkFuel : Nat → List Char → Nat → Bool → Bool
  | 0, l, depth, _ => l.isEmpty && depth == 0
  | _ + 1, [], depth, _ => depth == 0
  | fuel + 1, c :: rest, depth, prev =>
      if c = '\\' then
        match rest with
        | [] => false
        | _ :: rest' => regexOkFuel fuel rest' depth true
      else if c = '[' then
        match validClassTail rest with
        | some rest' => regexOkFuel fuel rest' depth true
        | none => false
      else if c = '(' then
        match rest with
        | '?' :: d :: rest' =>
            if d = ':' ∨ d = '=' ∨ d = '!' then regexOkFuel fuel rest' (depth + 1) false
            else false
        | _ => regexOkFuel fuel rest (depth + 1) false
      else if c = ')' then
        match depth with
        | 0 => false
        | d + 1 => regexOkFuel fuel rest d true
      else if c = '*' ∨ c = '+' ∨ c = '?' then
        if prev then
          match rest with
          | '?' :: rest' => regexOkFuel fuel rest' depth false
          | _ => regexOkFuel fuel rest depth false
        else false
      else if c = '|' ∨ c = '^' ∨ c = '$' then
        regexOkFuel fuel rest depth false
      else
        regexOkFuel fuel rest depth true

/-- Whether the JS `RegExp` constructor accepts the string as a pattern
(each step consumes at least one character, so the length is enough fuel). -/
def jsRegexValid (s : String) : Bool :=
  regexOkFuel s.data.length s.data 0 false

/-- Global search, value level: when `search` is truthy and
`options.searchFields` is present (note: present — in JS an empty array is
truthy), `$or` is set to one `(field, raw-search-term)` regex condition per
configured field; the term is used as the regex pattern unescaped. This is
the assignment the source makes when the `RegExp` constructions inside the
`map` all succeed; the failure of that construction is `searchFails` below,
and `queryBuilder` aborts on it before this assignment could be used. -/
def searchStage (opts : Options) (q : Req)
    (f : List (String × FilterVal)) : List (String × FilterVal) :=
  match strTruthy q.search, opts.searchFields with
  | some term, some fields =>
      setKey f "$or" (.forList (fields.map (fun fl => (fl, term))))
  | _, _ => f

/-- The failure mode of the global-search stage: `new RegExp(searchTerm, i)`
is constructed once per configured search field inside the `map` callback,
so with a non-empty `searchFields` and a search term the `RegExp`
constructor rejects, the stage throws a SyntaxError before `$or` is
assigned (with an empty `searchFields` the callback never runs and nothing
can throw). -/
def searchFails (opts : Options) (q : Req) : Bool :=
  match strTruthy q.search, opts.searchFields with
  | some term, some fields => !fields.isEmpty && !jsRegexValid term
  | _, _ => false

/-- The date field the range predicate is placed on:
`options.dateField`, defaulting to `createdAt`. -/
def dateFieldOf (opts : Options) : String :=
  opts.dateField.getD "createdAt"

/-- Date-range stage: when `date_from` or `date_to` is truthy, the date field
is overwritten with a fresh range object whose present bounds are the
`new Date(...)` parses of the parameters. -/
def dateStage (opts : Options) (q : Req)
    (f : List (String × FilterVal)) : List (String × FilterVal) :=
  if (strTruthy q.date_from).isSome ∨ (strTruthy q.date_to).isSome then
    setKey f (dateFieldOf opts)
      (.frange ((strTruthy q.date_from).map parseDate)
               ((strTruthy q.date_to).map parseDate))
  else f

/-- The filter object just before the date-range stage runs
(categories, field filters, then global search). -/
def filterBeforeDates (db : List (String × Nat)) (q : Req)
    (opts : Options) : List (String × FilterVal) :=
  searchStage opts q (filterStage (mkConfig opts) q (categoriesStage db q []))

/-- The complete filter object used for both the count and the fetch. -/
def filterObjectOf (db : List (String × Nat)) (q : Req)
    (opts : Options) : List (String × FilterVal) :=
  dateStage opts q (filterBeforeDates db q opts)

/-- Everything the executor receives: the compiled filter, the sort object,
and the page window. -/
structure QueryPlan where
  filter : List (String × FilterVal)
  sort : List (String × Int)
  page : Int
  limit : Int
  skip : Int
  deriving DecidableEq, Repr

/-- The full parse/compile phase of `queryBuilder` (source lines 26–223):
the plan a call computes when it completes. A call that aborts inside the
search stage (`searchFails`) never uses it; `queryBuilder` checks that
failure first. -/
def buildPlan (db : List (String × Nat)) (q : Req) (opts : Options) : QueryPlan :=
  let cfg := mkConfig opts
  { filter := filterObjectOf db q opts
    sort := sortObjectOf cfg q
    page := pageOf q
    limit := limitOf cfg q
    skip := skipOf cfg q }

/-- Uppercase hexadecimal digit for `n < 16`. -/
def hexDigit (n : Nat) : Char :=
  if n < 10 then Char.ofNat (48 + n) else Char.ofNat (55 + n)

/-- Characters `encodeURIComponent` leaves unescaped: alphanumerics, dash,
underscore, dot, bang, tilde, star, apostrophe, and parentheses. -/
def isUriUnreserved (c : Char) : Bool :=
  c.isAlphanum || c ∈ ['-', '_', '.', '!', '~', '*', Char.ofNat 39, '(', ')']

/-- Percent-encoding of one character. ASCII characters outside the
unreserved set become `%XX`; non-ASCII characters pass through unchanged
(the UTF-8 byte expansion is abstracted away in this model). -/
def encodeChar (c : Char) : List Char :=
  if isUriUnreserved c || c.toNat ≥ 128 then [c]
  else ['%', hexDigit (c.toNat / 16), hexDigit (c.toNat % 16)]

/-- Model of JavaScript `encodeURIComponent`. -/
def encodeURIComponent (s : String) : String :=
  ⟨s.data.flatMap encodeChar⟩

/-- Value of a hexadecimal digit character, or `none`. -/
def hexVal? (c : Char) : Option Nat :=
  if 48 ≤ c.toNat ∧ c.toNat ≤ 57 then some (c.toNat - 48)
  else if 65 ≤ c.toNat ∧ c.toNat ≤ 70 then some (c.toNat - 55)
  else if 97 ≤ c.toNat ∧ c.toNat ≤ 102 then some (c.toNat - 87)
  else none

/-- Percent-decoding at the character level, with explicit fuel so that the
recursion is structural and evaluates inside the kernel: a valid `%XX` triple
becomes the character with that code; a stray `%` is kept literally. -/
def decodeCharsFuel : Nat → List Char → List Char
  | 0, l => l
  | fuel + 1, l =>
      match l with
      | [] => []
      | c :: rest =>
          if c = '%' then
            match rest with
            | a :: b :: rest' =>
                match hexVal? a, hexVal? b with
                | some x, some y => Char.ofNat (16 * x + y) :: decodeCharsFuel fuel rest'
                | _, _ => c :: decodeCharsFuel fuel rest
            | _ => c :: decodeCharsFuel fuel rest
          else c :: decodeCharsFuel fuel rest

/-- Percent-decoding of a character list (fuel instantiated with the length,
which always suffices since each step consumes at least one character). -/
def decodeChars (l : List Char) : List Char :=
  decodeCharsFuel l.length l

/-- Percent-decoding of a string. -/
def percentDecode (s : String) : String :=
  ⟨decodeChars s.data⟩

/-- The source's query-string serialization (`buildUrl`, lines 264–274):
spread the original parameters, override `page`, drop parameters with empty
values, render each as `key=encodeURIComponent(value)`, join with `&`.
Keys are not encoded. -/
def joinSep (sep : String) : List String → String
  | [] => ""
  | [x] => x
  | x :: xs => x ++ sep ++ joinSep sep xs

/-- The parameter object `{ ...queryParams, page: pageNum }`. -/
def withPage (params : List (String × String)) (pageNum : Int) :
    List (String × String) :=
  setKey params "page" (toString pageNum)

/-- The query string built by `buildUrl` for a target page number. -/
def buildQueryString (params : List (String × String)) (pageNum : Int) : String :=
  joinSep "&"
    (((withPage params pageNum).filter (fun kv => kv.2 ≠ "")).map
      (fun kv => kv.1 ++ "=" ++ encodeURIComponent kv.2))

/-- Base URL without query string: protocol, host, base path and path. -/
def baseUrlOf (q : Req) : String :=
  q.protocol ++ "://" ++ q.host ++ q.basePath ++ q.path

/-- The navigation URL for a target page number. -/
def buildUrl (q : Req) (pageNum : Int) : String :=
  baseUrlOf q ++ "?" ++ buildQueryString q.rawQuery pageNum

/-- Splitting one `key=value` segment at the first `=`
(a segment without `=` has the empty value). -/
def splitPair : List Char → List Char × List Char
  | [] => ([], [])
  | x :: xs =>
      if x = '=' then ([], xs)
      else (x :: (splitPair xs).1, (splitPair xs).2)

/-- The query request parser's reading of a raw query string back into the
flat parameter map: split on `&`, split each segment at the first `=`,
percent-decode key and value. -/
def parseQueryString (s : String) : List (String × String) :=
  (splitOnChar '&' s.data).map
    (fun seg => (⟨decodeChars (splitPair seg).1⟩, ⟨decodeChars (splitPair seg).2⟩))

/-- Math.ceil(total / limit) for a non-negative count and a positive limit
(the only case the module reaches; a non-positive limit is mapped to 0). -/
def jsCeilDiv (total : Nat) (limit : Int) : Int :=
  if limit ≤ 0 then 0 else ((total : Int) + limit - 1) / limit

/-- The response envelope (section 10 of the source). The fetched `data`
sequence comes from the external store and is outside the model; `from` and
`to` are named `from_`/`to_` because `from` is reserved in Lean. -/
structure Response where
  total : Nat
  per_page : Int
  current_page : Int
  last_page : Int
  from_ : Option Int
  to_ : Option Int
  path : String
  first_page_url : String
  last_page_url : String
  next_page_url : Option String
  prev_page_url : Option String
  current_page_url : String
  filters_applied : Nat
  sort_by : String
  sort_direction : String
  deriving DecidableEq, Repr

/-- Construction of the response envelope from the plan and the store's
total count. -/
def mkResponse (q : Req) (cfg : Config) (plan : QueryPlan)
    (totalCount : Nat) : Response :=
  let lastPage := jsCeilDiv totalCount plan.limit
  { total := totalCount
    per_page := plan.limit
    current_page := plan.page
    last_page := lastPage
    from_ := if 0 < totalCount then some (plan.skip + 1) else none
    to_ := if 0 < totalCount then some (min (plan.skip + plan.limit) (totalCount : Int)) else none
    path := baseUrlOf q
    first_page_url := buildUrl q 1
    last_page_url := buildUrl q lastPage
    next_page_url := if plan.page < lastPage then some (buildUrl q (plan.page + 1)) else none
    prev_page_url := if 1 < plan.page then some (buildUrl q (plan.page - 1)) else none
    current_page_url := buildUrl q plan.page
    filters_applied := plan.filter.length
    sort_by := ((plan.sort.head?).map Prod.fst).getD cfg.defaultSort
    sort_direction := if (plan.sort.head?).map Prod.snd = some 1 then "asc" else "desc" }

/-- Does the filter carry an `Invalid Date` bound? -/
def hasInvalidDate (f : List (String × FilterVal)) : Bool :=
  f.any (fun kv =>
    match kv.2 with
    | .frange g l => g = some none || l = some none
    | _ => false)

/-- The two failure modes of a call, in source order, both re-raised by the
module's `catch` with the fixed prefix. First, the global-search stage
(lines 174–185) throws a SyntaxError when it constructs a `RegExp` from an
invalid search term (`searchFails`); the field-filter stage can never throw
this way because its pattern is always the escaped value, which is a valid
pattern (`jsRegexValid_escapeRegex`). Second — modelled from the spec: the
store-level execution of the count/fetch pair (Mongoose
`countDocuments`/`find`, outside `src/`) rejects a filter carrying an
`Invalid Date` bound; §7 of the spec states that malformed date input
propagates as an invalid-input failure. All other executions succeed and
report the injected `totalCount`. -/
def queryBuilder (db : List (String × Nat)) (q : Req) (opts : Options)
    (totalCount : Nat) : Except String Response :=
  if searchFails opts q then
    Except.error "Query Builder Hatası: Invalid regular expression"
  else if hasInvalidDate (buildPlan db q opts).filter then
    Except.error "Query Builder Hatası: Cast to date failed"
  else
    Except.ok (mkResponse q (mkConfig opts) (buildPlan db q opts) totalCount)

/-- A regex atom of the fragment of JS regexes this module can emit:
the wildcard `.` or a literal character (plain or backslash-escaped). -/
inductive RAtom where
  | rdot
  | rlit (c : Char)
  deriving DecidableEq, Repr

/-- Parse of a pattern string into a sequence of atoms. Only the fragment
with `.` and (escaped) literals is given a semantics; a pattern using any
other regex operator, or an escape class such as `\d`, yields `none`. -/
def parseAtoms : List Char → Option (List RAtom)
  | [] => some []
  | c :: rest =>
      if c = '\\' then
        match rest with
        | [] => none
        | d :: rest' =>
            if isRegexMeta d then (parseAtoms rest').map (fun as => .rlit d :: as)
            else none
      else if c = '.' then (parseAtoms rest).map (fun as => .rdot :: as)
      else if isRegexMeta c then none
      else (parseAtoms rest).map (fun as => .rlit c :: as)

/-- Whether an atom matches one subject character under the `i` flag:
`.` matches anything but a newline; a literal matches up to ASCII case. -/
def atomMatch : RAtom → Char → Bool
  | .rdot, c => c ≠ '\n'
  | .rlit a, c => a.toLower == c.toLower

/-- Whether the atom sequence matches a prefix of the subject. -/
def matchesHere : List RAtom → List Char → Bool
  | [], _ => true
  | _ :: _, [] => false
  | a :: as, c :: cs => atomMatch a c && matchesHere as cs

/-- Unanchored search: whether the atom sequence matches at some position. -/
def searchFrom (as : List RAtom) : List Char → Bool
  | [] => matchesHere as []
  | c :: cs => matchesHere as (c :: cs) || searchFrom as cs

/-- The test of a case-insensitive JS regex (the `i` flag) built from the
given pattern, for patterns in the supported fragment; `none` when the
pattern uses unsupported operators. -/
def regexTest (pattern : String) (s : String) : Option Bool :=
  (parseAtoms pattern.data).map (fun as => searchFrom as s.data)

/-- Contiguous-substring containment on character lists. -/
def substrOf (needle : List Char) : List Char → Bool
  | [] => needle.isEmpty
  | c :: cs => needle.isPrefixOf (c :: cs) || substrOf needle cs

/-- Case-insensitive literal-substring containment, the behaviour the spec
requires of an escaped filter value. -/
def ciSubstr (needle hay : String) : Bool :=
  substrOf (needle.data.map Char.toLower) (hay.data.map Char.toLower)

/-! ## Association-list lemmas -/

theorem lookupKey_setKey_self {α : Type} (m : List (String × α)) (k : String) (v : α) :
    lookupKey (setKey m k v) k = some v := by
  induction m with
  | nil => simp [setKey, lookupKey]
  | cons kv rest ih =>
      obtain ⟨k', v'⟩ := kv
      by_cases h : k' = k
      · simp [setKey, lookupKey, h]
      · simp [setKey, lookupKey, h, ih]

theorem lookupKey_setKey_ne {α : Type} (m : List (String × α)) (k f : String) (v : α)
    (h : f ≠ k) : lookupKey (setKey m k v) f = lookupKey m f := by
  induction m with
  | nil => simp [setKey, lookupKey, Ne.symm h]
  | cons kv rest ih =>
      obtain ⟨k', v'⟩ := kv
      by_cases hk : k' = k
      · subst hk
        simp [setKey, lookupKey, Ne.symm h]
      · by_cases hf : k' = f
        · simp [setKey, lookupKey, hk, hf, h]
        · simp [setKey, lookupKey, hk, hf, ih]

theorem mem_setKey_self {α : Type} (m : List (String × α)) (k : String) (v : α) :
    (k, v) ∈ setKey m k v := by
  induction m with
  | nil => simp [setKey]
  | cons kv rest ih =>
      obtain ⟨k', v'⟩ := kv
      by_cases h : k' = k
      · simp [setKey, h]
      · simp only [setKey, if_neg h]
        exact List.mem_cons_of_mem _ ih

theorem mem_of_mem_setKey {α : Type} (m : List (String × α)) (k : String) (v : α)
    (x : String × α) (h : x ∈ setKey m k v) : x ∈ m ∨ x = (k, v) := by
  induction m with
  | nil => simp [setKey] at h; simp [h]
  | cons kv rest ih =>
      obtain ⟨k', v'⟩ := kv
      by_cases hk : k' = k
      · simp only [setKey, if_pos hk] at h
        rcases List.mem_cons.mp h with h1 | h1
        · exact Or.inr h1
        · exact Or.inl (List.mem_cons_of_mem _ h1)
      · simp only [setKey, if_neg hk] at h
        rcases List.mem_cons.mp h with h1 | h1
        · exact Or.inl (by simp [h1])
        · rcases ih h1 with h2 | h2
          · exact Or.inl (List.mem_cons_of_mem _ h2)
          · exact Or.inr h2

theorem mem_of_lookupKey {α : Type} (m : List (String × α)) (k : String) (v : α)
    (h : lookupKey m k = some v) : (k, v) ∈ m := by
  induction m with
  | nil => simp [lookupKey] at h
  | cons kv rest ih =>
      obtain ⟨k', v'⟩ := kv
      by_cases hk : k' = k
      · subst hk
        simp [lookupKey] at h
        simp [h]
      · simp only [lookupKey, if_neg hk] at h
        exact List.mem_cons_of_mem _ (ih h)

/-! ## Stage-local lookup lemmas -/

theorem applyFilterField_shape (cfg : Config) (f : List (String × FilterVal))
    (kv : String × JSVal) :
    applyFilterField cfg f kv = f ∨
      ∃ val, applyFilterField cfg f kv = setKey f kv.1 val := by
  unfold applyFilterField
  split
  · exact Or.inr ⟨_, rfl⟩
  · exact Or.inl rfl

theorem lookupKey_applyFilterField_ne (cfg : Config) (f : List (String × FilterVal))
    (kv : String × JSVal) (fld : String) (h : fld ≠ kv.1) :
    lookupKey (applyFilterField cfg f kv) fld = lookupKey f fld := by
  rcases applyFilterField_shape cfg f kv with h1 | ⟨val, h1⟩ <;> rw [h1]
  exact lookupKey_setKey_ne f kv.1 fld val h

theorem applyFilterField_notAllowed (cfg : Config) (f : List (String × FilterVal))
    (kv : String × JSVal) (hne : cfg.allowedFilterFields ≠ [])
    (hnot : kv.1 ∉ cfg.allowedFilterFields) : applyFilterField cfg f kv = f := by
  obtain ⟨k, v⟩ := kv
  unfold applyFilterField
  rw [if_neg]
  rintro (h0 | hm)
  · exact hne (List.length_eq_zero.mp h0)
  · exact hnot hm

theorem lookupKey_foldl_filter_notkey (cfg : Config) (l : List (String × JSVal))
    (f₀ : List (String × FilterVal)) (fld : String)
    (h : ∀ kv ∈ l, fld ≠ kv.1) :
    lookupKey (l.foldl (applyFilterField cfg) f₀) fld = lookupKey f₀ fld := by
  induction l generalizing f₀ with
  | nil => rfl
  | cons kv rest ih =>
      rw [List.foldl_cons, ih _ (fun x hx => h x (List.mem_cons_of_mem _ hx)),
        lookupKey_applyFilterField_ne cfg f₀ kv fld (h kv (List.mem_cons_self _ _))]

theorem lookupKey_foldl_filter_notAllowed (cfg : Config) (l : List (String × JSVal))
    (f₀ : List (String × FilterVal)) (fld : String)
    (hne : cfg.allowedFilterFields ≠ []) (hnot : fld ∉ cfg.allowedFilterFields) :
    lookupKey (l.foldl (applyFilterField cfg) f₀) fld = lookupKey f₀ fld := by
  induction l generalizing f₀ with
  | nil => rfl
  | cons kv rest ih =>
      rw [List.foldl_cons, ih]
      by_cases hk : fld = kv.1
      · rw [applyFilterField_notAllowed cfg f₀ kv hne (hk ▸ hnot)]
      · exact lookupKey_applyFilterField_ne cfg f₀ kv fld hk

theorem lookupKey_categoriesStage_ne (db : List (String × Nat)) (q : Req)
    (f : List (String × FilterVal)) (fld : String) (h : fld ≠ "categoriesIds") :
    lookupKey (categoriesStage db q f) fld = lookupKey f fld := by
  unfold categoriesStage
  cases hc : strTruthy q.categories with
  | none => rfl
  | some c =>
      dsimp only
      cases hf : List.find? (fun p => toLowerString p.1 == toLowerString (trimString c)) db with
      | none => rfl
      | some p => exact lookupKey_setKey_ne f _ fld _ h

theorem lookupKey_searchStage_ne (opts : Options) (q : Req)
    (f : List (String × FilterVal)) (fld : String) (h : fld ≠ "$or") :
    lookupKey (searchStage opts q f) fld = lookupKey f fld := by
  unfold searchStage
  cases strTruthy q.search with
  | none => rfl
  | some term =>
      cases opts.searchFields with
      | none => rfl
      | some fields => exact lookupKey_setKey_ne f _ fld _ h

theorem lookupKey_dateStage_ne (opts : Options) (q : Req)
    (f : List (String × FilterVal)) (fld : String) (h : fld ≠ dateFieldOf opts) :
    lookupKey (dateStage opts q f) fld = lookupKey f fld := by
  unfold dateStage
  split
  · exact lookupKey_setKey_ne f _ fld _ h
  · rfl

theorem buildPlan_filter (db : List (String × Nat)) (q : Req) (opts : Options) :
    (buildPlan db q opts).filter = filterObjectOf db q opts := rfl

theorem lookupKey_filterObjectOf_dateField (db : List (String × Nat)) (q : Req)
    (opts : Options)
    (h : (strTruthy q.date_from).isSome ∨ (strTruthy q.date_to).isSome) :
    lookupKey (filterObjectOf db q opts) (dateFieldOf opts) =
      some (.frange ((strTruthy q.date_from).map parseDate)
                    ((strTruthy q.date_to).map parseDate)) := by
  unfold filterObjectOf dateStage
  rw [if_pos h]
  exact lookupKey_setKey_self _ _ _

/-! ## Regex-fragment semantics of escaped patterns -/

theorem parseAtoms_escape (l : List Char) :
    parseAtoms (l.flatMap escapeChar) = some (l.map RAtom.rlit) := by
  induction l with
  | nil => rfl
  | cons c rest ih =>
      by_cases hm : isRegexMeta c
      · simp [escapeChar, hm, parseAtoms, ih]
      · have hbs : ¬c = '\\' := by rintro rfl; exact absurd (by decide) hm
        have hdot : ¬c = '.' := by rintro rfl; exact absurd (by decide) hm
        have hflat : (c :: rest).flatMap escapeChar = c :: rest.flatMap escapeChar := by
          simp [escapeChar, hm]
        rw [hflat, parseAtoms.eq_def]
        dsimp only
        rw [if_neg hbs, if_neg hdot, if_neg hm, ih]
        rfl

theorem matchesHere_lits (n : List Char) : ∀ h : List Char,
    matchesHere (n.map RAtom.rlit) h =
      (n.map Char.toLower).isPrefixOf (h.map Char.toLower) := by
  induction n with
  | nil => intro h; simp [matchesHere, List.isPrefixOf]
  | cons a as ih =>
      intro h
      cases h with
      | nil => simp [matchesHere, List.isPrefixOf]
      | cons c cs => simp [matchesHere, List.isPrefixOf, atomMatch, ih]

theorem searchFrom_lits (n : List Char) : ∀ h : List Char,
    searchFrom (n.map RAtom.rlit) h =
      substrOf (n.map Char.toLower) (h.map Char.toLower) := by
  intro h
  induction h with
  | nil => cases n <;> simp [searchFrom, matchesHere, substrOf, List.isPrefixOf]
  | cons c cs ih => simp [searchFrom, substrOf, matchesHere_lits, ih]

/-- One unfolding step of the validity checker on a successor fuel and a
non-empty pattern. -/
theorem regexOkFuel_succ_cons (fuel : Nat) (c : Char) (rest : List Char)
    (depth : Nat) (prev : Bool) :
    regexOkFuel (fuel + 1) (c :: rest) depth prev =
      (if c = '\\' then
        match rest with
        | [] => false
        | _ :: rest' => regexOkFuel fuel rest' depth true
      else if c = '[' then
        match validClassTail rest with
        | some rest' => regexOkFuel fuel rest' depth true
        | none => false
      else if c = '(' then
        match rest with
        | '?' :: d :: rest' =>
            if d = ':' ∨ d = '=' ∨ d = '!' then regexOkFuel fuel rest' (depth + 1) false
            else false
        | _ => regexOkFuel fuel rest (depth + 1) false
      else if c = ')' then
        match depth with
        | 0 => false
        | d + 1 => regexOkFuel fuel rest d true
      else if c = '*' ∨ c = '+' ∨ c = '?' then
        if prev then
          match rest with
          | '?' :: rest' => regexOkFuel fuel rest' depth false
          | _ => regexOkFuel fuel rest depth false
        else false
      else if c = '|' ∨ c = '^' ∨ c = '$' then
        regexOkFuel fuel rest depth false
      else
        regexOkFuel fuel rest depth true) := rfl

/-- An escaped pattern is a sequence of atoms (escaped metacharacters and
plain literals), so the validity checker accepts it whatever the fuel
surplus, the surrounding depth verdict being all that remains. -/
theorem regexOkFuel_escape (v : List Char) : ∀ (fuel depth : Nat) (prev : Bool),
    (v.flatMap escapeChar).length ≤ fuel →
    regexOkFuel fuel (v.flatMap escapeChar) depth prev = (depth == 0) := by
  induction v with
  | nil =>
      intro fuel depth prev h
      cases fuel with
      | zero => simp [regexOkFuel]
      | succ g => rfl
  | cons c cs ih =>
      intro fuel depth prev h
      by_cases hm : isRegexMeta c
      · have hflat : (c :: cs).flatMap escapeChar = '\\' :: c :: cs.flatMap escapeChar := by
          simp [escapeChar, hm]
        rw [hflat] at h ⊢
        cases fuel with
        | zero => simp [List.length_cons] at h
        | succ g =>
            show regexOkFuel g (cs.flatMap escapeChar) depth true = (depth == 0)
            exact ih g depth true (by simp only [List.length_cons] at h; omega)
      · have hflat : (c :: cs).flatMap escapeChar = c :: cs.flatMap escapeChar := by
          simp [escapeChar, hm]
        rw [hflat] at h ⊢
        cases fuel with
        | zero => simp [List.length_cons] at h
        | succ g =>
            have h1 : ¬c = '\\' := by rintro rfl; exact absurd (by decide) hm
            have h2 : ¬c = '[' := by rintro rfl; exact absurd (by decide) hm
            have h3 : ¬c = '(' := by rintro rfl; exact absurd (by decide) hm
            have h4 : ¬c = ')' := by rintro rfl; exact absurd (by decide) hm
            have h5 : ¬(c = '*' ∨ c = '+' ∨ c = '?') := by
              rintro (rfl | rfl | rfl) <;> exact absurd (by decide) hm
            have h6 : ¬(c = '|' ∨ c = '^' ∨ c = '$') := by
              rintro (rfl | rfl | rfl) <;> exact absurd (by decide) hm
            rw [regexOkFuel_succ_cons, if_neg h1, if_neg h2, if_neg h3, if_neg h4,
              if_neg h5, if_neg h6]
            exact ih g depth true (by simp only [List.length_cons] at h; omega)

/-- The escaping applied to filter values always yields a pattern the
`RegExp` constructor accepts: the field-filter stage can never hit the
SyntaxError the raw-term search stage can. -/
theorem jsRegexValid_escapeRegex (s : String) :
    jsRegexValid (escapeRegex s) = true := by
  show regexOkFuel (s.data.flatMap escapeChar).length (s.data.flatMap escapeChar) 0 false = true
  rw [regexOkFuel_escape s.data _ 0 false le_rfl]
  rfl

/-- The pattern built from an escaped value matches a document exactly when
the raw value is a case-insensitive literal substring of the document. -/
theorem regexTest_escape (s doc : String) :
    regexTest (escapeRegex s) doc = some (ciSubstr s doc) := by
  unfold regexTest ciSubstr escapeRegex
  show (parseAtoms (s.data.flatMap escapeChar)).map (fun as => searchFrom as doc.data) = _
  rw [parseAtoms_escape]
  simp [searchFrom_lits]

/-- Lookup of an accepted filter field in the final filter: the compiled
predicate of its value, provided no later filter entry, no search clause and
no date range overwrite that key. -/
theorem lookupKey_buildPlan_acceptedField (db : List (String × Nat)) (q : Req)
    (opts : Options) (fld : String) (v : JSVal) (l₁ l₂ : List (String × JSVal))
    (hacc : (mkConfig opts).allowedFilterFields.length = 0 ∨
      fld ∈ (mkConfig opts).allowedFilterFields)
    (hinput : effectiveFilterInput q = l₁ ++ (fld, v) :: l₂)
    (hlater : ∀ kv ∈ l₂, fld ≠ kv.1)
    (hor : fld ≠ "$or") (hdate : fld ≠ dateFieldOf opts) :
    lookupKey (buildPlan db q opts).filter fld = some (compileFilterValue fld v) := by
  rw [buildPlan_filter]
  unfold filterObjectOf filterBeforeDates filterStage
  rw [lookupKey_dateStage_ne opts q _ fld hdate,
    lookupKey_searchStage_ne opts q _ fld hor, hinput, List.foldl_append,
    List.foldl_cons, lookupKey_foldl_filter_notkey (mkConfig opts) l₂ _ fld hlater]
  unfold applyFilterField
  dsimp only
  rw [if_pos hacc, lookupKey_setKey_self]

/-! ## Claim theorems -/

/-- C2: whenever the `sort` parameter is absent, or names a field (after
stripping a leading `-`) outside a non-empty `allowedSortFields`, the sort
used for the fetch is exactly the single pair (defaultSort, descending). -/
theorem sort_disallowed_falls_back (db : List (String × Nat)) (q : Req) (opts : Options)
    (h : q.sort = none ∨
      ∃ s, q.sort = some s ∧ s ≠ "" ∧ (mkConfig opts).allowedSortFields ≠ [] ∧
        stripSort s ∉ (mkConfig opts).allowedSortFields) :
    (buildPlan db q opts).sort = [((mkConfig opts).defaultSort, -1)] := by
  have hplan : (buildPlan db q opts).sort = sortObjectOf (mkConfig opts) q := rfl
  rw [hplan]
  unfold sortObjectOf
  rcases h with h | ⟨s, hs, hne, hall, hmem⟩
  · rw [h]
    rfl
  · rw [hs]
    have ht : strTruthy (some s) = some s := by simp [strTruthy, hne]
    rw [ht]
    show (if (mkConfig opts).allowedSortFields.length = 0 ∨
        stripSort s ∈ (mkConfig opts).allowedSortFields then
        [(stripSort s, if startsWithChar s '-' then -1 else 1)]
      else [((mkConfig opts).defaultSort, -1)]) = [((mkConfig opts).defaultSort, -1)]
    rw [if_neg]
    rintro (h0 | hm)
    · exact hall (List.length_eq_zero.mp h0)
    · exact hmem hm

/-- C2 witness: with `allowedSortFields = [name]` and request `sort=-secret`,
the effective sort is (createdAt, descending). -/
theorem sort_disallowed_falls_back_witness :
    (buildPlan [] { sort := some "-secret" }
      { allowedSortFields := some ["name"] }).sort = [("createdAt", -1)] :=
  sort_disallowed_falls_back [] { sort := some "-secret" }
    { allowedSortFields := some ["name"] }
    (Or.inr ⟨"-secret", rfl, by decide, by decide, by decide⟩)

/-- C3: a candidate filter field outside a non-empty `allowedFilterFields`
contributes no key to the resulting filter (here stated for fields distinct
from the keys the other pipeline stages write: `categoriesIds`, `$or`, and
the configured date field, which can only arise from the `categories`,
`search` and `date_from`/`date_to` parameters, never from a dropped filter
field); the drop is silent — the builder still returns normally. -/
theorem filter_disallowed_dropped (db : List (String × Nat)) (q : Req) (opts : Options)
    (fld : String)
    (hne : (mkConfig opts).allowedFilterFields ≠ [])
    (hnot : fld ∉ (mkConfig opts).allowedFilterFields)
    (hcat : fld ≠ "categoriesIds") (hor : fld ≠ "$or")
    (hdate : fld ≠ dateFieldOf opts) :
    lookupKey (buildPlan db q opts).filter fld = none := by
  rw [buildPlan_filter]
  unfold filterObjectOf filterBeforeDates filterStage
  rw [lookupKey_dateStage_ne opts q _ fld hdate,
    lookupKey_searchStage_ne opts q _ fld hor,
    lookupKey_foldl_filter_notAllowed (mkConfig opts) _ _ fld hne hnot,
    lookupKey_categoriesStage_ne db q _ fld hcat]
  rfl

/-- C3 witness: with `allowedFilterFields = [status]` and request
`filter[price]=10` (arriving via the bracket syntax), the resulting filter
has no `price` key. -/
theorem filter_disallowed_dropped_witness :
    lookupKey (buildPlan [] { bracketFilter := [("price", .vstr "10")] }
      { allowedFilterFields := some ["status"] }).filter "price" = none :=
  filter_disallowed_dropped [] { bracketFilter := [("price", .vstr "10")] }
    { allowedFilterFields := some ["status"] } "price"
    (by decide) (by decide) (by decide) (by decide) (by decide)

/-- C4: the parsed page is `max(1, parseInt(raw.page) or 1)`, the effective
limit is `min(max(1, parseInt(raw.limit) or defaultLimit), maxLimit)`,
both are at least 1 (given a positive configured `maxLimit`), the limit never
exceeds `maxLimit`, and `skip = (page-1)*limit` exactly. -/
theorem pagination_clamped (db : List (String × Nat)) (q : Req) (opts : Options)
    (hmax : 1 ≤ (mkConfig opts).maxLimit) :
    (buildPlan db q opts).page = max 1 (jsOrInt (q.page.bind parseIntJS) 1) ∧
    (buildPlan db q opts).limit =
      min (max 1 (jsOrInt (q.limit.bind parseIntJS) (mkConfig opts).defaultLimit))
        (mkConfig opts).maxLimit ∧
    1 ≤ (buildPlan db q opts).page ∧
    1 ≤ (buildPlan db q opts).limit ∧
    (buildPlan db q opts).limit ≤ (mkConfig opts).maxLimit ∧
    (buildPlan db q opts).skip = ((buildPlan db q opts).page - 1) * (buildPlan db q opts).limit := by
  refine ⟨rfl, rfl, le_max_left 1 _, ?_, min_le_right _ _, rfl⟩
  exact le_min (le_max_left 1 _) hmax

/-- C4 witness: request `page=0&limit=500` under the default configuration
parses to page 1, limit 100 (the `maxLimit` ceiling), skip 0. -/
theorem pagination_clamped_witness :
    (buildPlan [] { page := some "0", limit := some "500" } {}).page = 1 ∧
    (buildPlan [] { page := some "0", limit := some "500" } {}).limit = 100 ∧
    (buildPlan [] { page := some "0", limit := some "500" } {}).skip = 0 := by
  have h := pagination_clamped [] { page := some "0", limit := some "500" } {} (by decide)
  exact ⟨h.1.trans (by decide), h.2.1.trans (by decide), h.2.2.2.2.2.trans (by decide)⟩

/-- C10: when `date_from` or `date_to` is present, the configured date field
of the filter is exactly the freshly built range object — replacing any
predicate the earlier stages placed there — and every other key of the
filter is left exactly as the pre-date-range stages built it. -/
theorem dateRange_replaces_dateField (db : List (String × Nat)) (q : Req) (opts : Options)
    (h : (strTruthy q.date_from).isSome ∨ (strTruthy q.date_to).isSome) :
    lookupKey (buildPlan db q opts).filter (dateFieldOf opts) =
      some (.frange ((strTruthy q.date_from).map parseDate)
                    ((strTruthy q.date_to).map parseDate)) ∧
    ∀ k, k ≠ dateFieldOf opts →
      lookupKey (buildPlan db q opts).filter k =
        lookupKey (filterBeforeDates db q opts) k := by
  rw [buildPlan_filter]
  refine ⟨lookupKey_filterObjectOf_dateField db q opts h, ?_⟩
  intro k hk
  unfold filterObjectOf
  exact lookupKey_dateStage_ne opts q _ k hk

/-- C10 witness: an accepted field-level filter on `createdAt` is replaced by
the date range, while the accepted `status` filter survives unchanged. -/
theorem dateRange_replaces_dateField_witness :
    lookupKey (buildPlan []
      { date_from := some "2024-01-01",
        filter := some [("createdAt", .vstr "xyz"), ("status", .vstr "active")] } {}).filter
      "createdAt" = some (.frange (some (some 20240101)) none) ∧
    lookupKey (buildPlan []
      { date_from := some "2024-01-01",
        filter := some [("createdAt", .vstr "xyz"), ("status", .vstr "active")] } {}).filter
      "status" = some (.feq (.vstr "active")) := by
  have h := dateRange_replaces_dateField []
    { date_from := some "2024-01-01",
      filter := some [("createdAt", .vstr "xyz"), ("status", .vstr "active")] } {}
    (Or.inl (by decide))
  exact ⟨h.1.trans (by decide), (h.2 "status" (by decide)).trans (by decide)⟩

/-- C1: a present but unparseable `date_from` or `date_to` aborts the whole
call with an error — no response envelope is produced — and the bad bound is
not silently dropped: the filter handed to the store still carries the range
object with the invalid date recorded in it. -/
theorem malformed_date_aborts (db : List (String × Nat)) (q : Req) (opts : Options)
    (total : Nat)
    (h : (∃ s, strTruthy q.date_from = some s ∧ parseDate s = none) ∨
         (∃ s, strTruthy q.date_to = some s ∧ parseDate s = none)) :
    (∃ msg, queryBuilder db q opts total = Except.error msg) ∧
    lookupKey (buildPlan db q opts).filter (dateFieldOf opts) =
      some (.frange ((strTruthy q.date_from).map parseDate)
                    ((strTruthy q.date_to).map parseDate)) := by
  have hdate : (strTruthy q.date_from).isSome ∨ (strTruthy q.date_to).isSome := by
    rcases h with ⟨s, hs, _⟩ | ⟨s, hs, _⟩
    · exact Or.inl (by rw [hs]; rfl)
    · exact Or.inr (by rw [hs]; rfl)
  have hlook := lookupKey_filterObjectOf_dateField db q opts hdate
  have hinv : hasInvalidDate (filterObjectOf db q opts) = true := by
    apply List.any_eq_true.mpr
    refine ⟨_, mem_of_lookupKey _ _ _ hlook, ?_⟩
    rcases h with ⟨s, hs, hp⟩ | ⟨s, hs, hp⟩
    · simp [hs, hp]
    · simp [hs, hp]
  constructor
  · by_cases hsf : searchFails opts q = true
    · exact ⟨"Query Builder Hatası: Invalid regular expression", by
        unfold queryBuilder
        rw [if_pos hsf]⟩
    · refine ⟨"Query Builder Hatası: Cast to date failed", ?_⟩
      unfold queryBuilder
      rw [if_neg hsf, buildPlan_filter, hinv]
      rfl
  · rw [buildPlan_filter]
    exact hlook

/-- C1 witness: `date_from=garbage` makes the call abort with an error while
the filter still records the invalid bound. -/
theorem malformed_date_aborts_witness :
    (∃ msg, queryBuilder [] { date_from := some "garbage" } {} 0 = Except.error msg) ∧
    lookupKey (buildPlan [] { date_from := some "garbage" } {}).filter "createdAt" =
      some (.frange (some none) none) := by
  have h := malformed_date_aborts [] { date_from := some "garbage" } {} 0
    (Or.inl ⟨"garbage", by decide, by decide⟩)
  exact ⟨h.1, h.2.trans (by decide)⟩

/-- C5: an accepted comma-free string filter value on a field other than
`status` compiles to a regex whose pattern is the metacharacter-escaped
value, and that pattern — under the regex semantics — matches exactly the
documents containing the raw value as a case-insensitive literal substring
(never as a wildcard pattern). -/
theorem filter_value_escaped_literal (db : List (String × Nat)) (q : Req)
    (opts : Options) (fld s : String) (l₁ l₂ : List (String × JSVal))
    (hacc : (mkConfig opts).allowedFilterFields.length = 0 ∨
      fld ∈ (mkConfig opts).allowedFilterFields)
    (hinput : effectiveFilterInput q = l₁ ++ (fld, JSVal.vstr s) :: l₂)
    (hcomma : containsChar s ',' = false)
    (hstatus : fld ≠ "status")
    (hlater : ∀ kv ∈ l₂, fld ≠ kv.1)
    (hor : fld ≠ "$or") (hdate : fld ≠ dateFieldOf opts) :
    lookupKey (buildPlan db q opts).filter fld = some (.fregex (escapeRegex s)) ∧
    ∀ doc, regexTest (escapeRegex s) doc = some (ciSubstr s doc) := by
  refine ⟨?_, fun doc => regexTest_escape s doc⟩
  rw [lookupKey_buildPlan_acceptedField db q opts fld (JSVal.vstr s) l₁ l₂
    hacc hinput hlater hor hdate]
  simp [compileFilterValue, hcomma, hstatus]

/-- C5 witness: `filter[name]=a.b*c` under allowlist `[name]` compiles to the
escaped pattern; that pattern matches a document containing `a.b*c` literally
and rejects one where the dot and star would have to act as wildcards. -/
theorem filter_value_escaped_literal_witness :
    lookupKey (buildPlan [] { filter := some [("name", .vstr "a.b*c")] }
      { allowedFilterFields := some ["name"] }).filter "name" =
        some (.fregex "a\\.b\\*c") ∧
    regexTest (escapeRegex "a.b*c") "xxa.b*cyy" = some true ∧
    regexTest (escapeRegex "a.b*c") "xxaXbYcyy" = some false := by
  have h := filter_value_escaped_literal [] { filter := some [("name", .vstr "a.b*c")] }
    { allowedFilterFields := some ["name"] } "name" "a.b*c" [] []
    (by decide) rfl (by decide) (by decide) (by simp) (by decide) (by decide)
  exact ⟨h.1.trans (by decide), (h.2 "xxa.b*cyy").trans (by decide),
    (h.2 "xxaXbYcyy").trans (by decide)⟩

/-- C6: an accepted filter field whose string value contains a comma compiles
to set membership of the trimmed comma components; a comma-free string on the
`status` field compiles to exact match; a non-string value compiles to exact
match of the value unchanged. -/
theorem filter_value_semantics (db : List (String × Nat)) (q : Req)
    (opts : Options) (fld : String) (v : JSVal) (l₁ l₂ : List (String × JSVal))
    (hacc : (mkConfig opts).allowedFilterFields.length = 0 ∨
      fld ∈ (mkConfig opts).allowedFilterFields)
    (hinput : effectiveFilterInput q = l₁ ++ (fld, v) :: l₂)
    (hlater : ∀ kv ∈ l₂, fld ≠ kv.1)
    (hor : fld ≠ "$or") (hdate : fld ≠ dateFieldOf opts) :
    (∀ s, v = .vstr s → containsChar s ',' = true →
      lookupKey (buildPlan db q opts).filter fld =
        some (.fin ((splitOnChar ',' s.data).map (fun part => (⟨trimChars part⟩ : String))))) ∧
    (∀ s, v = .vstr s → containsChar s ',' = false → fld = "status" →
      lookupKey (buildPlan db q opts).filter fld = some (.feq (.vstr s))) ∧
    ((∀ s, v ≠ .vstr s) →
      lookupKey (buildPlan db q opts).filter fld = some (.feq v)) := by
  have hmain := lookupKey_buildPlan_acceptedField db q opts fld v l₁ l₂
    hacc hinput hlater hor hdate
  refine ⟨?_, ?_, ?_⟩
  · rintro s rfl hc
    rw [hmain]
    simp [compileFilterValue, hc]
  · rintro s rfl hc hst
    rw [hmain]
    simp [compileFilterValue, hc, hst]
  · intro hns
    rw [hmain]
    cases v with
    | vstr s => exact absurd rfl (hns s)
    | vnum n => rfl
    | vbool b => rfl

/-- C6 witness: `filter[status]=active,inactive` compiles to membership of
the set containing `active` and `inactive`. -/
theorem filter_value_semantics_witness :
    lookupKey (buildPlan [] { filter := some [("status", .vstr "active,inactive")] }
      {}).filter "status" = some (.fin ["active", "inactive"]) := by
  have h := filter_value_semantics []
    { filter := some [("status", .vstr "active,inactive")] } {} "status"
    (JSVal.vstr "active,inactive") [] []
    (by decide) rfl (by simp) (by decide) (by decide)
  exact (h.1 "active,inactive" rfl (by decide)).trans (by decide)

/-- C9 counterexample: the claim fails on the code in three ways. With
`search=x` and a configured-but-empty `searchFields` (an empty array is
truthy in JS), a disjunction clause — the empty one — IS added. The
per-field predicate uses the raw, unescaped search term as its pattern, so
`search=a.b` matches the document `axb`, which does not contain the term as
a literal substring. And with a term the `RegExp` constructor rejects, such
as `search=(` with a non-empty `searchFields`, the construction inside the
`map` throws and the whole call aborts — no disjunction clause is ever
produced, contradicting the claimed "exactly one disjunction" for every
non-empty term. -/
theorem search_clause_counterexample :
    lookupKey (buildPlan [] { search := some "x" }
      { searchFields := some [] }).filter "$or" = some (.forList []) ∧
    lookupKey (buildPlan [] { search := some "a.b" }
      { searchFields := some ["name"] }).filter "$or" =
        some (.forList [("name", "a.b")]) ∧
    regexTest "a.b" "axb" = some true ∧
    ciSubstr "a.b" "axb" = false ∧
    jsRegexValid "(" = false ∧
    queryBuilder [] { search := some "(" } { searchFields := some ["name"] } 0 =
      Except.error "Query Builder Hatası: Invalid regular expression" := by
  refine ⟨by decide, by decide, by decide, by decide, by decide, rfl⟩

/-- C9 (amended): when `search` is truthy and `searchFields` is configured
(present — even as the empty sequence): if the configured list is empty or
the term is a pattern the `RegExp` constructor accepts, the filter gains
exactly one `$or` clause with one case-insensitive regex predicate per
configured field, each using the raw unescaped search term as its pattern;
if the list is non-empty and the term is not an acceptable pattern, the
`RegExp` construction throws and the whole call aborts with an error — no
clause and no envelope are produced. When `search` is absent or empty, or
`searchFields` is not configured at all, no `$or` clause is added. (Side
conditions: no filter field and no date field named `$or`, which would
write the same key.) -/
theorem search_clause_amended (db : List (String × Nat)) (q : Req) (opts : Options)
    (hkeys : ∀ kv ∈ effectiveFilterInput q, kv.1 ≠ "$or")
    (hdate : dateFieldOf opts ≠ "$or") :
    (∀ term fields, strTruthy q.search = some term → opts.searchFields = some fields →
      (fields = [] ∨ jsRegexValid term = true) →
      lookupKey (buildPlan db q opts).filter "$or" =
        some (.forList (fields.map (fun fl => (fl, term))))) ∧
    (∀ term fields, strTruthy q.search = some term → opts.searchFields = some fields →
      fields ≠ [] → jsRegexValid term = false →
      ∀ total, queryBuilder db q opts total =
        Except.error "Query Builder Hatası: Invalid regular expression") ∧
    ((strTruthy q.search = none ∨ opts.searchFields = none) →
      lookupKey (buildPlan db q opts).filter "$or" = none) := by
  refine ⟨?_, ?_, ?_⟩
  · intro term fields hterm hfields _
    rw [buildPlan_filter]
    unfold filterObjectOf filterBeforeDates
    rw [lookupKey_dateStage_ne opts q _ "$or" (Ne.symm hdate)]
    unfold searchStage
    rw [hterm, hfields]
    exact lookupKey_setKey_self _ _ _
  · intro term fields hterm hfields hne hinvalid total
    have hsf : searchFails opts q = true := by
      unfold searchFails
      rw [hterm, hfields]
      simp [hinvalid, List.isEmpty_iff, hne]
    unfold queryBuilder
    rw [if_pos hsf]
  · intro hcase
    rw [buildPlan_filter]
    unfold filterObjectOf filterBeforeDates
    have hss : ∀ f, searchStage opts q f = f := by
      intro f
      unfold searchStage
      rcases hcase with h | h
      · rw [h]
      · rw [h]
        cases strTruthy q.search <;> rfl
    rw [lookupKey_dateStage_ne opts q _ "$or" (Ne.symm hdate), hss]
    unfold filterStage
    rw [lookupKey_foldl_filter_notkey (mkConfig opts) _ _ "$or"
      (fun kv hkv => Ne.symm (hkeys kv hkv)),
      lookupKey_categoriesStage_ne db q _ "$or" (by decide)]
    rfl

/-- C9 amended witness: `search=bitki` with `searchFields=[name,description]`
yields the two-predicate disjunction; `search=(` (a rejected pattern) with a
non-empty `searchFields` aborts the call; with no `search` parameter no
`$or` clause appears. -/
theorem search_clause_amended_witness :
    lookupKey (buildPlan [] { search := some "bitki" }
      { searchFields := some ["name", "description"] }).filter "$or" =
        some (.forList [("name", "bitki"), ("description", "bitki")]) ∧
    queryBuilder [] { search := some "(" } { searchFields := some ["name"] } 0 =
      Except.error "Query Builder Hatası: Invalid regular expression" ∧
    lookupKey (buildPlan [] {} { searchFields := some ["name"] }).filter "$or" = none := by
  have h1 := search_clause_amended [] { search := some "bitki" }
    { searchFields := some ["name", "description"] }
    (by simp [effectiveFilterInput]) (by decide)
  have h2 := search_clause_amended [] { search := some "(" }
    { searchFields := some ["name"] }
    (by simp [effectiveFilterInput]) (by decide)
  have h3 := search_clause_amended [] {} { searchFields := some ["name"] }
    (by simp [effectiveFilterInput]) (by decide)
  exact ⟨(h1.1 "bitki" ["name", "description"] (by decide) rfl
      (Or.inr (by decide))).trans (by decide),
    h2.2.1 "(" ["name"] (by decide) rfl (by decide) (by decide) 0,
    h3.2.2 (Or.inl (by decide))⟩

/-- C7: in every successful response envelope, `last_page` is the ceiling of
`total / limit` (so `total = 0` gives `last_page = 0`), and `from`/`to` are
`skip+1` and `min(skip+limit, total)` when `total > 0` and both `null` when
`total = 0`. -/
theorem envelope_pagination (db : List (String × Nat)) (q : Req) (opts : Options)
    (total : Nat) (resp : Response)
    (hmax : 1 ≤ (mkConfig opts).maxLimit)
    (hok : queryBuilder db q opts total = Except.ok resp) :
    (total = 0 → resp.last_page = 0 ∧ resp.from_ = none ∧ resp.to_ = none) ∧
    (0 < total →
      resp.from_ = some ((buildPlan db q opts).skip + 1) ∧
      resp.to_ = some (min ((buildPlan db q opts).skip + (buildPlan db q opts).limit)
        (total : Int))) ∧
    resp.last_page = ⌈(total : ℚ) / (((buildPlan db q opts).limit : Int) : ℚ)⌉ := by
  have hresp : resp = mkResponse q (mkConfig opts) (buildPlan db q opts) total := by
    unfold queryBuilder at hok
    split at hok
    · exact absurd hok (by simp)
    · split at hok
      · exact absurd hok (by simp)
      · injection hok with h
        exact h.symm
  subst hresp
  have hL : (1 : Int) ≤ (buildPlan db q opts).limit := le_min (le_max_left _ _) hmax
  have hL0 : (0 : Int) < (buildPlan db q opts).limit := lt_of_lt_of_le zero_lt_one hL
  refine ⟨?_, ?_, ?_⟩
  · rintro rfl
    refine ⟨?_, rfl, rfl⟩
    show jsCeilDiv 0 (buildPlan db q opts).limit = 0
    unfold jsCeilDiv
    rw [if_neg (not_le.mpr hL0)]
    exact Int.ediv_eq_zero_of_lt (by push_cast; linarith) (by push_cast; linarith)
  · intro hpos
    constructor
    · show (if 0 < total then some ((buildPlan db q opts).skip + 1) else none) = _
      rw [if_pos hpos]
    · show (if 0 < total then
          some (min ((buildPlan db q opts).skip + (buildPlan db q opts).limit) (total : Int))
        else none) = _
      rw [if_pos hpos]
  · show jsCeilDiv total (buildPlan db q opts).limit = _
    unfold jsCeilDiv
    rw [if_neg (not_le.mpr hL0)]
    have h1 := Int.ediv_add_emod ((total : Int) + (buildPlan db q opts).limit - 1)
      (buildPlan db q opts).limit
    have h2 := Int.emod_nonneg ((total : Int) + (buildPlan db q opts).limit - 1)
      (ne_of_gt hL0)
    have h3 := Int.emod_lt_of_pos ((total : Int) + (buildPlan db q opts).limit - 1) hL0
    have hub : (total : Int) ≤
        (((total : Int) + (buildPlan db q opts).limit - 1) / (buildPlan db q opts).limit) *
          (buildPlan db q opts).limit := by nlinarith
    have hlb : ((((total : Int) + (buildPlan db q opts).limit - 1) / (buildPlan db q opts).limit)
        - 1) * (buildPlan db q opts).limit < (total : Int) := by nlinarith
    symm
    rw [Int.ceil_eq_iff]
    have hLq : (0 : ℚ) < (((buildPlan db q opts).limit : Int) : ℚ) := by exact_mod_cast hL0
    constructor
    · rw [lt_div_iff₀ hLq]
      exact_mod_cast hlb
    · rw [div_le_iff₀ hLq]
      exact_mod_cast hub

/-- C7 witness: 25 matching documents with `page=2&limit=10` give
`from = 11`, `to = 20`, `last_page = 3`. -/
theorem envelope_pagination_witness :
    (mkResponse { page := some "2", limit := some "10" } (mkConfig {})
      (buildPlan [] { page := some "2", limit := some "10" } {}) 25).from_ = some 11 ∧
    (mkResponse { page := some "2", limit := some "10" } (mkConfig {})
      (buildPlan [] { page := some "2", limit := some "10" } {}) 25).to_ = some 20 ∧
    (mkResponse { page := some "2", limit := some "10" } (mkConfig {})
      (buildPlan [] { page := some "2", limit := some "10" } {}) 25).last_page = 3 := by
  have h := envelope_pagination [] { page := some "2", limit := some "10" } {} 25
    (mkResponse { page := some "2", limit := some "10" } (mkConfig {})
      (buildPlan [] { page := some "2", limit := some "10" } {}) 25)
    (by decide) rfl
  have h3 := h.2.2
  rw [show (buildPlan [] { page := some "2", limit := some "10" } {}).limit = 10 from by decide]
    at h3
  exact ⟨((h.2.1 (by norm_num)).1).trans (by decide),
    ((h.2.1 (by norm_num)).2).trans (by decide),
    h3.trans (Int.ceil_eq_iff.mpr (by norm_num))⟩

/-! ## Percent-encoding round trip -/

theorem hexVal?_hexDigit (n : Nat) (h : n < 16) : hexVal? (hexDigit n) = some n := by
  interval_cases n <;> decide

/-- One unfolding step of `decodeCharsFuel` on a successor fuel and a
non-empty list. -/
theorem decodeCharsFuel_succ_cons (fuel : Nat) (c : Char) (rest : List Char) :
    decodeCharsFuel (fuel + 1) (c :: rest) =
      if c = '%' then
        match rest with
        | a :: b :: rest' =>
            match hexVal? a, hexVal? b with
            | some x, some y => Char.ofNat (16 * x + y) :: decodeCharsFuel fuel rest'
            | _, _ => c :: decodeCharsFuel fuel rest
        | _ => c :: decodeCharsFuel fuel rest
      else c :: decodeCharsFuel fuel rest := rfl

theorem decodeCharsFuel_add (extra : Nat) : ∀ (fuel : Nat) (l : List Char),
    l.length ≤ fuel → decodeCharsFuel (fuel + extra) l = decodeCharsFuel fuel l := by
  intro fuel
  induction fuel with
  | zero =>
      intro l h
      have : l = [] := List.eq_nil_of_length_eq_zero (Nat.le_zero.mp h)
      subst this
      cases extra with
      | zero => rfl
      | succ e =>
          show decodeCharsFuel (0 + (e + 1)) [] = []
          rw [Nat.zero_add]
          rfl
  | succ fuel ih =>
      intro l h
      rw [Nat.add_right_comm]
      cases l with
      | nil => rfl
      | cons c rest =>
          have hr : rest.length ≤ fuel := by
            simp only [List.length_cons] at h
            omega
          rw [decodeCharsFuel_succ_cons, decodeCharsFuel_succ_cons]
          by_cases hc : c = '%'
          · rw [if_pos hc, if_pos hc]
            cases rest with
            | nil =>
                show c :: decodeCharsFuel (fuel + extra) [] = c :: decodeCharsFuel fuel []
                rw [ih [] (Nat.zero_le _)]
            | cons a rest1 =>
                cases rest1 with
                | nil =>
                    show c :: decodeCharsFuel (fuel + extra) [a] = c :: decodeCharsFuel fuel [a]
                    rw [ih [a] hr]
                | cons b rest2 =>
                    have hr2 : rest2.length ≤ fuel := by
                      simp only [List.length_cons] at hr
                      omega
                    dsimp only
                    cases hx : hexVal? a <;> cases hy : hexVal? b <;> dsimp only
                    · rw [ih _ hr]
                    · rw [ih _ hr]
                    · rw [ih _ hr]
                    · rw [ih rest2 hr2]
          · rw [if_neg hc, if_neg hc, ih rest hr]

theorem decodeCharsFuel_eq_decodeChars (fuel : Nat) (l : List Char)
    (h : l.length ≤ fuel) : decodeCharsFuel fuel l = decodeChars l := by
  obtain ⟨extra, rfl⟩ : ∃ extra, fuel = l.length + extra := ⟨fuel - l.length, by omega⟩
  exact decodeCharsFuel_add extra l.length l le_rfl

theorem decodeChars_cons_plain (c : Char) (l : List Char) (hc : ¬c = '%') :
    decodeChars (c :: l) = c :: decodeChars l := by
  show decodeCharsFuel (l.length + 1) (c :: l) = c :: decodeChars l
  rw [decodeCharsFuel_succ_cons, if_neg hc]
  rfl

theorem decodeChars_escape (x y : Nat) (l : List Char) (hx : x < 16) (hy : y < 16) :
    decodeChars ('%' :: hexDigit x :: hexDigit y :: l) =
      Char.ofNat (16 * x + y) :: decodeChars l := by
  show decodeCharsFuel (l.length + 1 + 1 + 1) ('%' :: hexDigit x :: hexDigit y :: l) = _
  rw [decodeCharsFuel_succ_cons, if_pos rfl]
  dsimp only
  rw [hexVal?_hexDigit x hx, hexVal?_hexDigit y hy]
  dsimp only
  rw [decodeCharsFuel_eq_decodeChars (l.length + 1 + 1) l (by omega)]

theorem decodeChars_no_percent (l : List Char) (h : '%' ∉ l) : decodeChars l = l := by
  induction l with
  | nil => rfl
  | cons c rest ih =>
      have hc : ¬c = '%' := fun hcc => h (hcc ▸ List.mem_cons_self c rest)
      rw [decodeChars_cons_plain c rest hc, ih (fun hm => h (List.mem_cons_of_mem c hm))]

theorem decodeChars_encodeList (v : List Char) : ∀ rest : List Char,
    decodeChars (v.flatMap encodeChar ++ rest) = v ++ decodeChars rest := by
  induction v with
  | nil => intro rest; rfl
  | cons c cs ih =>
      intro rest
      show decodeChars ((encodeChar c ++ cs.flatMap encodeChar) ++ rest) = _
      rw [List.append_assoc]
      unfold encodeChar
      split
      · next hcond =>
          have hc : ¬c = '%' := by
            rintro rfl
            exact absurd hcond (by decide)
          show decodeChars (c :: (cs.flatMap encodeChar ++ rest)) = _
          rw [decodeChars_cons_plain c _ hc, ih rest]
          rfl
      · next hcond =>
          have hlt : c.toNat < 128 := by
            by_contra hge
            exact hcond (by simp [Nat.le_of_not_lt hge])
          show decodeChars ('%' :: hexDigit (c.toNat / 16) :: hexDigit (c.toNat % 16) ::
            (cs.flatMap encodeChar ++ rest)) = _
          rw [decodeChars_escape (c.toNat / 16) (c.toNat % 16) _ (by omega) (by omega),
            Nat.div_add_mod c.toNat 16, Char.ofNat_toNat, ih rest]
          rfl

/-- Decoding inverts encoding: percent-decode of the percent-encoded string
is the original string. -/
theorem percentDecode_encodeURIComponent (v : String) :
    percentDecode (encodeURIComponent v) = v := by
  show (⟨decodeChars (v.data.flatMap encodeChar)⟩ : String) = v
  have h := decodeChars_encodeList v.data []
  rw [List.append_nil] at h
  rw [h]
  show (⟨v.data ++ decodeChars []⟩ : String) = v
  rw [show decodeChars [] = [] from rfl, List.append_nil]

theorem splitOnChar_no_sep (sep : Char) : ∀ l : List Char, sep ∉ l →
    splitOnChar sep l = [l] := by
  intro l
  induction l with
  | nil => intro _; rfl
  | cons x xs ih =>
      intro h
      have hx : ¬x = sep := fun he => h (he ▸ List.mem_cons_self x xs)
      rw [splitOnChar, if_neg hx, ih (fun hm => h (List.mem_cons_of_mem x hm))]

theorem splitOnChar_append (sep : Char) : ∀ (a rest : List Char), sep ∉ a →
    splitOnChar sep (a ++ sep :: rest) = a :: splitOnChar sep rest := by
  intro a
  induction a with
  | nil =>
      intro rest _
      show splitOnChar sep (sep :: rest) = [] :: splitOnChar sep rest
      rw [splitOnChar, if_pos rfl]
  | cons x xs ih =>
      intro rest h
      have hx : ¬x = sep := fun he => h (he ▸ List.mem_cons_self x xs)
      show splitOnChar sep (x :: (xs ++ sep :: rest)) = (x :: xs) :: splitOnChar sep rest
      rw [splitOnChar, if_neg hx, ih rest (fun hm => h (List.mem_cons_of_mem x hm))]

theorem splitOnChar_joinSep : ∀ strs : List String, strs ≠ [] →
    (∀ s ∈ strs, '&' ∉ s.data) →
    splitOnChar '&' (joinSep "&" strs).data = strs.map String.data := by
  intro strs
  induction strs with
  | nil => intro h; cases h rfl
  | cons s more ih =>
      intro _ h
      cases more with
      | nil =>
          show splitOnChar '&' (joinSep "&" [s]).data = [s.data]
          exact splitOnChar_no_sep '&' s.data (h s (List.mem_cons_self _ _))
      | cons t more2 =>
          have hdata : (joinSep "&" (s :: t :: more2)).data =
              s.data ++ '&' :: (joinSep "&" (t :: more2)).data := by
            show (s ++ "&" ++ joinSep "&" (t :: more2)).data = _
            simp [String.data_append]
          rw [hdata, splitOnChar_append '&' s.data _ (h s (List.mem_cons_self _ _)),
            ih (by simp) (fun u hu => h u (List.mem_cons_of_mem _ hu))]
          rfl

theorem splitPair_append : ∀ k v : List Char, '=' ∉ k →
    splitPair (k ++ '=' :: v) = (k, v) := by
  intro k
  induction k with
  | nil =>
      intro v _
      show splitPair ('=' :: v) = ([], v)
      rw [splitPair, if_pos rfl]
  | cons x xs ih =>
      intro v h
      have hx : ¬x = '=' := fun he => h (he ▸ List.mem_cons_self x xs)
      show splitPair (x :: (xs ++ '=' :: v)) = (x :: xs, v)
      rw [splitPair, if_neg hx, ih v (fun hm => h (List.mem_cons_of_mem x hm))]

theorem hexDigit_ne_special (n : Nat) (h : n < 16) :
    ¬hexDigit n = '&' ∧ ¬hexDigit n = '=' := by
  interval_cases n <;> exact (by decide)

theorem encodeChar_mem_ne (c d : Char) (hd : d ∈ encodeChar c) :
    ¬d = '&' ∧ ¬d = '=' := by
  unfold encodeChar at hd
  split at hd
  · next hcond =>
      rcases List.mem_singleton.mp hd with rfl
      constructor <;> rintro rfl <;> exact absurd hcond (by decide)
  · next hcond =>
      have hlt : c.toNat < 128 := by
        by_contra hge
        exact hcond (by simp [Nat.le_of_not_lt hge])
      simp only [List.mem_cons, List.mem_singleton, List.not_mem_nil, or_false] at hd
      rcases hd with rfl | rfl | rfl
      · exact ⟨by decide, by decide⟩
      · exact hexDigit_ne_special _ (by omega)
      · exact hexDigit_ne_special _ (by omega)

theorem mem_encode_ne (v : String) (d : Char)
    (hd : d ∈ (encodeURIComponent v).data) : ¬d = '&' ∧ ¬d = '=' := by
  have : d ∈ v.data.flatMap encodeChar := hd
  rcases List.mem_flatMap.mp this with ⟨c, _, hdc⟩
  exact encodeChar_mem_ne c d hdc

/-- Re-parsing the serialized form of a parameter list recovers it exactly,
provided every key is free of the separator and escape characters. -/
theorem parse_build_roundtrip (l : List (String × String)) (hne : l ≠ [])
    (hkl : ∀ kv ∈ l, ∀ c ∈ (kv.1 : String).data, ¬c = '&' ∧ ¬c = '=' ∧ ¬c = '%') :
    parseQueryString (joinSep "&"
      (l.map (fun kv => kv.1 ++ "=" ++ encodeURIComponent kv.2))) = l := by
  unfold parseQueryString
  have hsegs : ∀ s ∈ l.map (fun kv => kv.1 ++ "=" ++ encodeURIComponent kv.2),
      '&' ∉ s.data := by
    intro s hs
    rcases List.mem_map.mp hs with ⟨kv, hkv, rfl⟩
    intro hmem
    have hdata : (kv.1 ++ "=" ++ encodeURIComponent kv.2).data =
        kv.1.data ++ '=' :: (encodeURIComponent kv.2).data := by
      simp [String.data_append]
    rw [hdata] at hmem
    rcases List.mem_append.mp hmem with hm | hm
    · exact (hkl kv hkv '&' hm).1 rfl
    · rcases List.mem_cons.mp hm with he | hm2
      · exact absurd he (by decide)
      · exact (mem_encode_ne kv.2 '&' hm2).1 rfl
  have hmapne : l.map (fun kv => kv.1 ++ "=" ++ encodeURIComponent kv.2) ≠ [] := by
    intro hmap
    exact hne (List.map_eq_nil_iff.mp hmap)
  rw [splitOnChar_joinSep _ hmapne hsegs, List.map_map, List.map_map]
  have hcongr : ∀ kv ∈ l,
      (((fun seg => ((⟨decodeChars (splitPair seg).1⟩ : String),
          (⟨decodeChars (splitPair seg).2⟩ : String))) ∘ String.data) ∘
            (fun kv => kv.1 ++ "=" ++ encodeURIComponent kv.2)) kv = id kv := by
    intro kv hkv
    have hdata : (kv.1 ++ "=" ++ encodeURIComponent kv.2).data =
        kv.1.data ++ '=' :: (encodeURIComponent kv.2).data := by
      simp [String.data_append]
    show ((⟨decodeChars (splitPair (kv.1 ++ "=" ++ encodeURIComponent kv.2).data).1⟩ : String),
        (⟨decodeChars (splitPair (kv.1 ++ "=" ++ encodeURIComponent kv.2).data).2⟩ : String)) = kv
    rw [hdata, splitPair_append _ _ (fun hm => (hkl kv hkv '=' hm).2.1 rfl)]
    have hnp : '%' ∉ kv.1.data := fun hm => (hkl kv hkv '%' hm).2.2 rfl
    have henc : decodeChars (encodeURIComponent kv.2).data = kv.2.data := by
      have h := decodeChars_encodeList kv.2.data []
      rw [show decodeChars [] = ([] : List Char) from rfl, List.append_nil,
        List.append_nil] at h
      exact h
    show ((⟨decodeChars kv.1.data⟩ : String), (⟨decodeChars (encodeURIComponent kv.2).data⟩ : String)) = kv
    rw [decodeChars_no_percent _ hnp, henc]
  rw [List.map_congr_left hcongr, List.map_id]

/-- C8 counterexample: `buildUrl` percent-encodes only parameter values,
never keys, so a key containing `&` (reachable from an inbound query such as
`a%26b=x`, which Express decodes to the key `a&b`) breaks the round trip:
re-parsing the built query string yields keys `a` and `b` and the original
parameter `a&b` is gone. -/
theorem buildUrl_roundtrip_counterexample :
    buildQueryString [("a&b", "x")] 1 = "a&b=x&page=1" ∧
    parseQueryString "a&b=x&page=1" = [("a", ""), ("b", "x"), ("page", "1")] ∧
    lookupKey (parseQueryString (buildQueryString [("a&b", "x")] 1)) "a&b" = none := by
  decide

/-- C8 (amended): for every request whose parameter keys contain none of the
characters `&`, `=`, `%` (keys are serialized raw — only values are
percent-encoded), the first-page URL is the base URL plus the page-1 query
string, and re-parsing that query string yields exactly the original
parameters with `page` overridden to 1 and empty-valued parameters omitted;
every surviving value is preserved byte-for-byte through
percent-encoding/decoding. -/
theorem buildUrl_roundtrip_safe_keys (q : Req)
    (hk : ∀ kv ∈ q.rawQuery, ∀ c ∈ (kv.1 : String).data,
      ¬c = '&' ∧ ¬c = '=' ∧ ¬c = '%') :
    buildUrl q 1 = baseUrlOf q ++ "?" ++ buildQueryString q.rawQuery 1 ∧
    parseQueryString (buildQueryString q.rawQuery 1) =
      (withPage q.rawQuery 1).filter (fun kv => kv.2 ≠ "") := by
  refine ⟨rfl, ?_⟩
  have hkl : ∀ kv ∈ (withPage q.rawQuery 1).filter (fun kv => kv.2 ≠ ""),
      ∀ c ∈ (kv.1 : String).data, ¬c = '&' ∧ ¬c = '=' ∧ ¬c = '%' := by
    intro kv hkv
    have hkv' : kv ∈ withPage q.rawQuery 1 := List.mem_of_mem_filter hkv
    rcases mem_of_mem_setKey q.rawQuery "page" (toString (1 : Int)) kv hkv' with hm | rfl
    · exact hk kv hm
    · exact fun c hc =>
        (by decide : ∀ c ∈ ("page" : String).data, ¬c = '&' ∧ ¬c = '=' ∧ ¬c = '%') c hc
  have hne : (withPage q.rawQuery 1).filter (fun kv => kv.2 ≠ "") ≠ [] := by
    apply List.ne_nil_of_mem (a := ("page", toString (1 : Int)))
    exact List.mem_filter.mpr ⟨mem_setKey_self _ _ _, by decide⟩
  exact parse_build_roundtrip _ hne hkl

/-- C8 amended witness: a request with filter, sort, an empty-valued
parameter and a `page` parameter round-trips to the same parameters with
`page=1` and the empty parameter dropped. -/
theorem buildUrl_roundtrip_safe_keys_witness :
    parseQueryString (buildQueryString
      [("filter[name]", "a b&c"), ("empty", ""), ("page", "5"), ("sort", "-name")] 1) =
      [("filter[name]", "a b&c"), ("page", "1"), ("sort", "-name")] := by
  have h := buildUrl_roundtrip_safe_keys
    { rawQuery := [("filter[name]", "a b&c"), ("empty", ""), ("page", "5"), ("sort", "-name")] }
    (by decide)
  exact h.2.trans (by decide)

end Plant
